import Mathlib

/-!
Verification of the tensor helper utilities in `src/transformers/tf_utils.py`.

A tensor is modelled shallowly as a shape (list of dimension sizes) together
with a total data function on multi-indices; only indices that are valid for
the shape are meaningful, and tensor observations are made at valid indices.
Elementwise broadcasting, row-major reshape, moments and batch normalization
are embedded following the semantics of the underlying tensor library calls
used by the source.
-/

/-- A tensor: a shape together with data indexed by multi-indices. -/
structure Tensor (α : Type) where
  shape : List Nat
  data : List Nat → α

/-- The rank of a tensor is the length of its shape. -/
def Tensor.rank {α : Type} (t : Tensor α) : Nat := t.shape.length

/-- `idx` is a valid multi-index for shape `s`. -/
def ValidIdx (s idx : List Nat) : Prop :=
  idx.length = s.length ∧ ∀ i, i < s.length → idx.getD i 0 < s.getD i 0

/-- Elementwise map over a tensor. -/
def Tensor.map {α β : Type} (f : α → β) (t : Tensor α) : Tensor β :=
  ⟨t.shape, fun idx => f (t.data idx)⟩

/-- Combination of two dimension sizes under broadcasting: a size-1 axis
stretches to the size of the other operand. -/
def bdim (a b : Nat) : Nat := if a = 1 then b else a

/-- Pad a shape on the left with singleton axes up to rank `r`. -/
def padLeft (s : List Nat) (r : Nat) : List Nat :=
  List.replicate (r - s.length) 1 ++ s

/-- Broadcast shape of two operand shapes (right-aligned). -/
def bshape (s t : List Nat) : List Nat :=
  List.zipWith bdim (padLeft s (max s.length t.length)) (padLeft t (max s.length t.length))

/-- Map an output multi-index back into an operand of shape `s`: keep the
rightmost coordinates and clamp to 0 along size-1 axes of the operand. -/
def bidx (s idx : List Nat) : List Nat :=
  List.zipWith (fun d c => if d = 1 then 0 else c) s (idx.drop (idx.length - s.length))

/-- Broadcasting elementwise binary operation on tensors. -/
def bop {α β γ : Type} (f : α → β → γ) (t : Tensor α) (u : Tensor β) : Tensor γ :=
  ⟨bshape t.shape u.shape,
   fun idx => f (t.data (bidx t.shape idx)) (u.data (bidx u.shape idx))⟩

/-- Row-major linearization of a multi-index within a shape. -/
def linIndex : List Nat → List Nat → Nat
  | _ :: ds, i :: is => i * ds.prod + linIndex ds is
  | _, _ => 0

/-- Row-major delinearization of a flat offset into a multi-index. -/
def delinIndex : List Nat → Nat → List Nat
  | [], _ => []
  | d :: ds, k => (k / ds.prod) % d :: delinIndex ds (k % ds.prod)

/-- Reshape: reinterpret the row-major flat contents under a new shape. -/
def Tensor.reshape {α : Type} (t : Tensor α) (s : List Nat) : Tensor α :=
  ⟨s, fun idx => t.data (delinIndex t.shape (linIndex s idx))⟩

/-- The k-th element of a tensor's row-major flat contents. -/
def Tensor.flatGet {α : Type} (t : Tensor α) (k : Nat) : α :=
  t.data (delinIndex t.shape k)

/-- Observable equality of tensors: same shape, same data at valid indices. -/
def Tensor.EqOn {α : Type} (t u : Tensor α) : Prop :=
  t.shape = u.shape ∧ ∀ idx, ValidIdx t.shape idx → t.data idx = u.data idx

/-- Resolution of a possibly-negative axis index against a rank, as the
tensor library does for axis arguments. -/
def resolveAxis (axis : Int) (rank : Nat) : Nat :=
  (if axis < 0 then axis + rank else axis).toNat

/-- Python list read `l[i]` with support for negative indices. -/
def pyGetD (l : List Nat) (i : Int) (d : Nat) : Nat :=
  if i < 0 then l.getD (i + l.length).toNat d else l.getD i.toNat d

/-- Python list write `l[i] = v` with support for negative indices. -/
def pySet (l : List Nat) (i : Int) (v : Nat) : List Nat :=
  if i < 0 then l.set (i + l.length).toNat v else l.set i.toNat v

/-! ## shape_list -/

/-- A dimension of a tensor-library static shape: statically known or not. -/
inductive TfDim
  | known (n : Nat)
  | unknown
deriving DecidableEq

/-- Inputs accepted by `shape_list`: a plain in-memory array (whose shape is
always fully known) or a library tensor with optional static shape
information (`none` meaning the rank itself is unknown). -/
inductive ShapeInput
  | ndarray (shape : List Nat)
  | tensor (static : Option (List TfDim))
deriving DecidableEq

/-- An entry of the list built by `shape_list`: a concrete integer size, or
the dynamic placeholder `tf.shape(tensor)[i]` for axis `i`. -/
inductive Dim
  | static (n : Nat)
  | dynamic (axis : Nat)
deriving DecidableEq

/-- Result of `shape_list`: a per-axis list, or the whole dynamic-shape
handle `tf.shape(tensor)` returned unchanged when the rank is unknown. -/
inductive ShapeListResult
  | dims (l : List Dim)
  | dynamicHandle
deriving DecidableEq

/-- `shape_list` from the source: ndarray shapes are returned as concrete
integers; a tensor with no rank information yields the dynamic handle;
otherwise each axis is the static size when known, else `tf.shape(t)[i]`. -/
def shape_list : ShapeInput → ShapeListResult
  | .ndarray s => .dims (s.map Dim.static)
  | .tensor none => .dynamicHandle
  | .tensor (some static) =>
      .dims (static.enum.map fun p =>
        match p.2 with
        | .known n => Dim.static n
        | .unknown => Dim.dynamic p.1)

/-! ## flatten -/

/-- `flatten` from the source: resolves negative `start_dim`/`end_dim` by
adding the rank, returns the input unchanged when the two resolved indices
coincide, and otherwise reshapes so that the axes `start_dim .. end_dim`
(inclusive) collapse into a single axis whose size is their product.
In-range resolved indices are modelled with `Int.toNat` slicing. -/
def flatten {α : Type} (input : Tensor α) (start_dim end_dim : Int) : Tensor α :=
  let e := if end_dim < 0 then end_dim + input.rank else end_dim
  let s := if start_dim < 0 then start_dim + input.rank else start_dim
  if s = e then input
  else
    let inShape := input.shape
    let flattenedDim := ((inShape.drop s.toNat).take (e.toNat + 1 - s.toNat)).prod
    let outShape := inShape.take s.toNat ++ [flattenedDim] ++ inShape.drop (e.toNat + 1)
    input.reshape outShape

/-! ## invert_attention_mask -/

/-- The rank-3 expansion `mask[:, None, :, :]`. -/
def expandRank3 {α : Type} (m : Tensor α) : Tensor α :=
  ⟨m.shape.take 1 ++ [1] ++ m.shape.drop 1, fun idx => m.data (idx.take 1 ++ idx.drop 2)⟩

/-- The rank-2 expansion `mask[:, None, None, :]`. -/
def expandRank2 {α : Type} (m : Tensor α) : Tensor α :=
  ⟨m.shape.take 1 ++ [1, 1] ++ m.shape.drop 1, fun idx => m.data (idx.take 1 ++ idx.drop 3)⟩

/-- `invert_attention_mask` from the source. Only ranks 3 and 2 assign the
expanded tensor; any other rank leaves it unassigned, which is modelled by
`none` (the Python code fails there with an unbound-variable error). The
expanded mask is then turned into the additive bias `(1 - mask) * dtype_min`,
with the dtype's most negative value passed as `dtypeMin`. -/
def invert_attention_mask {α : Type} [Ring α] (dtypeMin : α) (m : Tensor α) :
    Option (Tensor α) :=
  let expanded : Option (Tensor α) :=
    if m.rank = 3 then some (expandRank3 m)
    else if m.rank = 2 then some (expandRank2 m)
    else none
  expanded.map (Tensor.map fun v => (1 - v) * dtypeMin)

/-! ## stable_softmax -/

/-- `tf.nn.softmax`: exponentiate and normalize along the resolved axis,
which defaults to the last axis when unspecified. -/
noncomputable def tfSoftmax (logits : Tensor ℝ) (axis : Option Int) : Tensor ℝ :=
  let ax := resolveAxis (axis.getD (-1)) logits.rank
  let n := logits.shape.getD ax 1
  ⟨logits.shape, fun idx =>
    Real.exp (logits.data idx) /
      ∑ j ∈ Finset.range n, Real.exp (logits.data (idx.set ax j))⟩

/-- `stable_softmax` from the source: the standard softmax applied to
`logits + 1e-9`. -/
noncomputable def stable_softmax (logits : Tensor ℝ) (axis : Option Int) : Tensor ℝ :=
  tfSoftmax (logits.map fun v => v + 1e-9) axis

/-! ## functional_layernorm -/

/-- Mean along one axis (population mean over that axis), keeping the axis
with size 1, as `tf.nn.moments(..., keepdims=True)` does. -/
noncomputable def Tensor.meanAlong (x : Tensor ℝ) (ax : Nat) : Tensor ℝ :=
  ⟨x.shape.set ax 1, fun idx =>
    (∑ j ∈ Finset.range (x.shape.getD ax 1), x.data (idx.set ax j)) /
      (x.shape.getD ax 1 : ℝ)⟩

/-- Population variance along one axis, keeping the axis with size 1, as
`tf.nn.moments(..., keepdims=True)` does. -/
noncomputable def Tensor.varAlong (x : Tensor ℝ) (ax : Nat) : Tensor ℝ :=
  ⟨x.shape.set ax 1, fun idx =>
    (∑ j ∈ Finset.range (x.shape.getD ax 1),
        (x.data (idx.set ax j) - (x.meanAlong ax).data idx) ^ 2) /
      (x.shape.getD ax 1 : ℝ)⟩

/-- `tf.nn.batch_normalization`: computes `x * inv + (offset - mean * inv)`
with `inv = rsqrt(variance + eps) * scale`, all under broadcasting. -/
noncomputable def batch_normalization (x mean variance offset scale : Tensor ℝ)
    (eps : ℝ) : Tensor ℝ :=
  bop (· + ·)
    (bop (· * ·) x
      (bop (· * ·) (variance.map fun v => (Real.sqrt (v + eps))⁻¹) scale))
    (bop (· - ·) offset
      (bop (· * ·) mean
        (bop (· * ·) (variance.map fun v => (Real.sqrt (v + eps))⁻¹) scale)))

/-- The `axis` argument of `functional_layernorm`: the source checks
`isinstance(axis, int)`, so a list of axes is also representable. -/
inductive AxisArg
  | int (i : Int)
  | axes (l : List Int)

/-- Whether the `axis` argument is a single integer. -/
def AxisArg.isInt : AxisArg → Bool
  | .int _ => true
  | .axes _ => false

/-- The shape `[1] * inputs.shape.rank` with position `axis` replaced by
`shape_list(inputs)[axis]`, built by the source before reshaping the
parameters (negative `axis` uses Python list indexing). -/
def layernormParamShape (inputs : Tensor ℝ) (axis : Int) : List Nat :=
  pySet (List.replicate inputs.rank 1) axis (pyGetD inputs.shape axis 1)

/-- The weight/bias tensor actually handed to batch normalization: reshaped
to `layernormParamShape` when `axis != -1`, used as a rank-1 vector
otherwise. -/
def layernormEffectiveParam (inputs p : Tensor ℝ) (axis : Int) : Tensor ℝ :=
  if axis ≠ -1 then p.reshape (layernormParamShape inputs axis) else p

/-- The message of the `NotImplementedError` raised by the source. -/
def layernormErrMsg : String :=
  "Only 1D weight and bias tensors are supported for now, with only a single axis."

/-- `functional_layernorm` from the source: rejects non-rank-1 weight/bias
and non-integer axis with `NotImplementedError`, computes moments along the
axis with kept dims, reshapes the parameters when `axis != -1`, and applies
batch normalization. -/
noncomputable def functional_layernorm (inputs weight bias : Tensor ℝ) (eps : ℝ)
    (axis : AxisArg) : Except String (Tensor ℝ) :=
  match axis with
  | .axes _ => .error layernormErrMsg
  | .int ax =>
    if weight.rank ≠ 1 ∨ bias.rank ≠ 1 then .error layernormErrMsg
    else
      let a := resolveAxis ax inputs.rank
      let mean := inputs.meanAlong a
      let variance := inputs.varAlong a
      let w := layernormEffectiveParam inputs weight ax
      let b := layernormEffectiveParam inputs bias ax
      .ok (batch_normalization inputs mean variance b w eps)

/-- The all-ones tensor of a given shape. -/
def onesTensor (s : List Nat) : Tensor ℝ := ⟨s, fun _ => 1⟩

/-- The all-zeros tensor of a given shape. -/
def zerosTensor (s : List Nat) : Tensor ℝ := ⟨s, fun _ => 0⟩

/-! ## Basic unfolding lemmas -/

@[simp] theorem Tensor.map_shape {α β : Type} (f : α → β) (t : Tensor α) :
    (t.map f).shape = t.shape := rfl

@[simp] theorem Tensor.map_data {α β : Type} (f : α → β) (t : Tensor α) (idx : List Nat) :
    (t.map f).data idx = f (t.data idx) := rfl

@[simp] theorem bop_shape {α β γ : Type} (f : α → β → γ) (t : Tensor α) (u : Tensor β) :
    (bop f t u).shape = bshape t.shape u.shape := rfl

theorem bop_data {α β γ : Type} (f : α → β → γ) (t : Tensor α) (u : Tensor β)
    (idx : List Nat) :
    (bop f t u).data idx = f (t.data (bidx t.shape idx)) (u.data (bidx u.shape idx)) := rfl

@[simp] theorem Tensor.meanAlong_shape (x : Tensor ℝ) (ax : Nat) :
    (x.meanAlong ax).shape = x.shape.set ax 1 := rfl

@[simp] theorem Tensor.varAlong_shape (x : Tensor ℝ) (ax : Nat) :
    (x.varAlong ax).shape = x.shape.set ax 1 := rfl

@[simp] theorem Tensor.reshape_shape {α : Type} (t : Tensor α) (s : List Nat) :
    (t.reshape s).shape = s := rfl

theorem Tensor.reshape_data {α : Type} (t : Tensor α) (s idx : List Nat) :
    (t.reshape s).data idx = t.data (delinIndex t.shape (linIndex s idx)) := rfl

/-! ## List and broadcasting helper lemmas -/

theorem set_getD_self {l : List Nat} {i d : Nat} (h : i < l.length) :
    l.set i (l.getD i d) = l := by
  apply List.ext_getElem (by simp)
  intro n h1 h2
  rw [List.getElem_set]
  split
  · subst n; rw [List.getD_eq_getElem l d h]
  · rfl

@[simp] theorem bdim_self (a : Nat) : bdim a a = a := by
  unfold bdim; split <;> simp_all

theorem padLeft_self (s : List Nat) : padLeft s s.length = s := by
  simp [padLeft]

theorem bshape_eq_zipWith {s t : List Nat} (h : s.length = t.length) :
    bshape s t = List.zipWith bdim s t := by
  unfold bshape
  rw [h, max_self, padLeft_self, ← h, padLeft_self]

@[simp] theorem bshape_self (s : List Nat) : bshape s s = s := by
  rw [bshape_eq_zipWith rfl]
  induction s with
  | nil => rfl
  | cons a l ih => simp [ih]

theorem bshape_setOne_full (s : List Nat) (m : Nat) : bshape (s.set m 1) s = s := by
  rw [bshape_eq_zipWith (by simp)]
  apply List.ext_getElem (by simp)
  intro n h1 h2
  rw [List.getElem_zipWith, List.getElem_set]
  split
  · simp [bdim]
  · exact bdim_self _

theorem bshape_setOne_param (s : List Nat) (m C : Nat) :
    bshape (s.set m 1) ((List.replicate s.length 1).set m C) = s.set m C := by
  rw [bshape_eq_zipWith (by simp)]
  apply List.ext_getElem (by simp)
  intro n h1 h2
  rw [List.getElem_zipWith, List.getElem_set, List.getElem_set, List.getElem_set]
  split
  · simp [bdim]
  · rw [List.getElem_replicate]
    unfold bdim
    split
    · rename_i h
      exact h.symm
    · rfl

theorem bshape_param_full (s : List Nat) (m C : Nat) (hC : s.getD m 0 = C) :
    bshape ((List.replicate s.length 1).set m C) s = s := by
  rw [bshape_eq_zipWith (by simp)]
  apply List.ext_getElem (by simp)
  intro n h1 h2
  rw [List.getElem_zipWith, List.getElem_set]
  split
  · rename_i hmn
    subst hmn
    have hm : m < s.length := by simpa using h2
    have hCm : s[m] = C := by
      rw [← List.getD_eq_getElem s 0 hm]; exact hC
    rw [hCm, bdim_self]
  · rw [List.getElem_replicate]
    simp [bdim]

theorem replicate_set_last (r C : Nat) (hr : 1 ≤ r) :
    (List.replicate r 1).set (r - 1) C = List.replicate (r - 1) 1 ++ [C] := by
  apply List.ext_getElem (by simp; omega)
  intro n h1 h2
  rw [List.getElem_set, List.getElem_append]
  simp only [List.length_set, List.length_replicate] at h1
  split
  · rename_i hn
    subst hn
    rw [dif_neg (by simp)]
    simp
  · rename_i hn
    have hx : n < (List.replicate (r - 1) (1 : Nat)).length := by
      simp only [List.length_replicate]; omega
    rw [dif_pos hx, List.getElem_replicate, List.getElem_replicate]

theorem padLeft_singleton (r C : Nat) :
    padLeft [C] r = List.replicate (r - 1) 1 ++ [C] := by
  simp [padLeft]

theorem bshape_singleton_right (t : List Nat) (C : Nat) (ht : 1 ≤ t.length) :
    bshape t [C] = List.zipWith bdim t (List.replicate (t.length - 1) 1 ++ [C]) := by
  unfold bshape
  have hmax : max t.length ([C] : List Nat).length = t.length := by simp; omega
  rw [hmax, padLeft_self, padLeft_singleton t.length C]

theorem bidx_valid {s idx : List Nat} (h : ValidIdx s idx) : bidx s idx = idx := by
  obtain ⟨hlen, hlt⟩ := h
  unfold bidx
  rw [hlen, Nat.sub_self, List.drop_zero]
  apply List.ext_getElem (by simp [hlen])
  intro n h1 h2
  rw [List.getElem_zipWith]
  split
  · rename_i hone
    have := hlt n (by simp at h1; omega)
    rw [List.getD_eq_getElem s 0 (by simp at h1; omega),
        List.getD_eq_getElem idx 0 h2] at this
    omega
  · rfl

theorem bidx_set_one {s idx : List Nat} (m : Nat) (h : ValidIdx s idx) :
    bidx (s.set m 1) idx = idx.set m 0 := by
  obtain ⟨hlen, hlt⟩ := h
  unfold bidx
  rw [List.length_set, hlen, Nat.sub_self, List.drop_zero]
  apply List.ext_getElem (by simp [hlen])
  intro n h1 h2
  simp only [List.length_zipWith, List.length_set, List.length_drop] at h1
  have hns : n < s.length := by omega
  have hni : n < idx.length := by omega
  rw [List.getElem_zipWith, List.getElem_set, List.getElem_set]
  by_cases hmn : m = n
  · rw [if_pos hmn, if_pos hmn]
    simp
  · rw [if_neg hmn, if_neg hmn]
    split
    · rename_i hone
      have := hlt n hns
      rw [List.getD_eq_getElem s 0 hns, List.getD_eq_getElem idx 0 hni, hone] at this
      omega
    · rfl

theorem validIdx_set_zero {s idx : List Nat} (m : Nat) (h : ValidIdx s idx) :
    ValidIdx (s.set m 1) (idx.set m 0) := by
  obtain ⟨hlen, hlt⟩ := h
  refine ⟨by simp [hlen], ?_⟩
  intro i hi
  simp only [List.length_set] at hi
  by_cases him : m = i
  · subst him
    have hm : m < idx.length := by omega
    rw [List.getD_eq_getElem _ 0 (by simpa using hm),
        List.getD_eq_getElem _ 0 (by simpa using hi),
        List.getElem_set, List.getElem_set]
    simp
  · have hi' : i < idx.length := by omega
    rw [List.getD_eq_getElem _ 0 (by simpa using hi'),
        List.getD_eq_getElem _ 0 (by simpa using hi),
        List.getElem_set, List.getElem_set, if_neg him, if_neg him]
    have := hlt i hi
    rw [List.getD_eq_getElem s 0 hi, List.getD_eq_getElem idx 0 hi'] at this
    exact this

@[simp] theorem delin_singleton (C k : Nat) : delinIndex [C] k = [k % C] := by
  simp [delinIndex]

theorem lin_replicate_zero (k C j : Nat) :
    linIndex (List.replicate k 1 ++ [C]) (List.replicate k 0 ++ [j]) = j := by
  induction k with
  | zero => simp [linIndex]
  | succ n ih =>
    rw [List.replicate_succ, List.replicate_succ, List.cons_append, List.cons_append]
    unfold linIndex
    simpa using ih

theorem lin_delin (s : List Nat) (k : Nat) (h : k < s.prod) :
    linIndex s (delinIndex s k) = k := by
  induction s generalizing k with
  | nil =>
    simp only [List.prod_nil] at h
    have hk : k = 0 := by omega
    subst hk
    rfl
  | cons d ds ih =>
    unfold delinIndex linIndex
    rcases Nat.eq_zero_or_pos ds.prod with hp | hp
    · rw [List.prod_cons, hp, Nat.mul_zero] at h
      omega
    · have hk : k % ds.prod < ds.prod := Nat.mod_lt _ hp
      rw [ih _ hk]
      have hdiv : k / ds.prod < d := by
        rw [List.prod_cons, Nat.mul_comm] at h
        exact Nat.div_lt_of_lt_mul h
      rw [Nat.mod_eq_of_lt hdiv, Nat.mul_comm]
      exact Nat.div_add_mod k ds.prod

theorem drop_pred_eq {idx : List Nat} {r : Nat} (h : idx.length = r) (hr : 1 ≤ r) :
    idx.drop (r - 1) = [idx.getD (r - 1) 0] := by
  have hlt : r - 1 < idx.length := by omega
  rw [List.drop_eq_getElem_cons hlt]
  have hr1 : r - 1 + 1 = idx.length := by omega
  rw [hr1, List.drop_length, List.getD_eq_getElem idx 0 hlt]

/-! ## Real-arithmetic helper lemmas -/

theorem sqrt_inv_sub_le (e : ℝ) (h : 0 < e) : 1 - (Real.sqrt (1 + e))⁻¹ ≤ e := by
  have h1 : 1 ≤ Real.sqrt (1 + e) := Real.one_le_sqrt.mpr (by linarith)
  have h2 : Real.sqrt (1 + e) ≤ 1 + e := by
    rw [Real.sqrt_le_iff]; exact ⟨by linarith, by nlinarith⟩
  have h3 : 0 < Real.sqrt (1 + e) := by linarith
  have h5 : 1 / (1 + e) ≤ 1 / Real.sqrt (1 + e) := one_div_le_one_div_of_le h3 h2
  have h6 : 1 - e ≤ 1 / (1 + e) := by
    rw [le_div_iff₀ (by linarith)]; nlinarith
  rw [inv_eq_one_div]
  linarith

theorem sqrt_inv_le_one (e : ℝ) (h : 0 < e) : (Real.sqrt (1 + e))⁻¹ ≤ 1 := by
  have h1 : 1 ≤ Real.sqrt (1 + e) := Real.one_le_sqrt.mpr (by linarith)
  rw [inv_le_one_iff₀]
  right; exact h1

theorem sqrt_inv_nonneg (e : ℝ) : 0 ≤ (Real.sqrt (1 + e))⁻¹ := by
  positivity

/-! ## Axis resolution lemmas -/

theorem resolveAxis_neg_one (r : Nat) : resolveAxis (-1) r = r - 1 := by
  unfold resolveAxis
  rw [if_pos (by norm_num)]
  omega

theorem resolveAxis_last (r : Nat) (hr : 1 ≤ r) : resolveAxis ((r : Int) - 1) r = r - 1 := by
  unfold resolveAxis
  rw [if_neg (by omega)]
  omega

theorem resolveAxis_lt {axis : Int} {r : Nat} (h1 : -(r : Int) ≤ axis) (h2 : axis < r) :
    resolveAxis axis r < r := by
  unfold resolveAxis
  split <;> omega

theorem pySet_resolve (l : List Nat) (axis : Int) (v : Nat) :
    pySet l axis v = l.set (resolveAxis axis l.length) v := by
  unfold pySet resolveAxis
  split <;> rfl

theorem pyGetD_resolve (l : List Nat) (axis : Int) (d : Nat) :
    pyGetD l axis d = l.getD (resolveAxis axis l.length) d := by
  unfold pyGetD resolveAxis
  split <;> rfl

theorem layernormParamShape_resolve (x : Tensor ℝ) (axis : Int) :
    layernormParamShape x axis =
      (List.replicate x.rank 1).set (resolveAxis axis x.rank)
        (x.shape.getD (resolveAxis axis x.rank) 1) := by
  unfold layernormParamShape
  have hlr : (List.replicate x.rank (1 : Nat)).length = x.rank := by simp
  have hls : x.shape.length = x.rank := rfl
  rw [pyGetD_resolve, pySet_resolve, hlr, hls]

/-! ## Broadcast access to a reshaped rank-1 parameter -/

theorem reshape_param_data {α : Type} (w : Tensor α) (C : Nat) (s idx : List Nat)
    (hw : w.shape = [C]) (hs : 1 ≤ s.length)
    (hC : s.getD (s.length - 1) 0 = C) (hv : ValidIdx s idx) :
    (w.reshape (List.replicate (s.length - 1) 1 ++ [C])).data
        (bidx (List.replicate (s.length - 1) 1 ++ [C]) idx)
      = w.data (bidx [C] idx) := by
  obtain ⟨hlen, hlt⟩ := hv
  have hlast : idx.getD (s.length - 1) 0 < C := by
    have := hlt (s.length - 1) (by omega)
    rw [hC] at this
    exact this
  have hPlen : (List.replicate (s.length - 1) 1 ++ [C]).length = idx.length := by
    simp [hlen]; omega
  have hbP : bidx (List.replicate (s.length - 1) 1 ++ [C]) idx =
      List.replicate (s.length - 1) 0 ++ [idx.getD (s.length - 1) 0] := by
    unfold bidx
    rw [hPlen, Nat.sub_self, List.drop_zero]
    apply List.ext_getElem
    · simp [hlen]
      omega
    · intro n h1 h2
      simp only [List.length_zipWith, List.length_append, List.length_replicate,
        List.length_cons, List.length_nil] at h1
      have hn : n < idx.length := by omega
      rw [List.getElem_zipWith, List.getElem_append, List.getElem_append]
      by_cases hnr : n < s.length - 1
      · rw [dif_pos (by simpa using hnr), dif_pos (by simpa using hnr),
          List.getElem_replicate, List.getElem_replicate]
        simp
      · have hnr' : n = s.length - 1 := by omega
        subst hnr'
        rw [dif_neg (by simp only [List.length_replicate]; omega),
            dif_neg (by simp only [List.length_replicate]; omega)]
        simp only [List.length_replicate, Nat.sub_self, List.getElem_cons_zero]
        have hxlt : s.length - 1 < idx.length := by omega
        rw [← List.getD_eq_getElem idx 0 hxlt]
        split
        · rename_i hCone
          rw [hCone] at hlast
          omega
        · rfl
  have hbC : bidx [C] idx = [idx.getD (s.length - 1) 0] := by
    unfold bidx
    have hd : idx.length - ([C] : List Nat).length = s.length - 1 := by simp [hlen]
    rw [hd, drop_pred_eq hlen hs]
    simp only [List.zipWith_cons_cons, List.zipWith_nil_right]
    congr 1
    split
    · rename_i hCone
      subst hCone
      omega
    · rfl
  rw [hbP, hbC, Tensor.reshape_data, hw, lin_replicate_zero, delin_singleton,
    Nat.mod_eq_of_lt hlast]

/-! ## Pointwise evaluation of batch normalization -/

theorem batch_normalization_eval (x off sc : Tensor ℝ) (eps : ℝ) (m : Nat)
    (h1 : bshape (x.shape.set m 1) sc.shape = x.shape)
    (h2 : bshape off.shape x.shape = x.shape) :
    (batch_normalization x (x.meanAlong m) (x.varAlong m) off sc eps).shape = x.shape ∧
    ∀ idx, ValidIdx x.shape idx →
      (batch_normalization x (x.meanAlong m) (x.varAlong m) off sc eps).data idx =
        x.data idx *
            ((Real.sqrt ((x.varAlong m).data (idx.set m 0) + eps))⁻¹ *
              sc.data (bidx sc.shape idx)) +
          (off.data (bidx off.shape idx) -
            (x.meanAlong m).data (idx.set m 0) *
              ((Real.sqrt ((x.varAlong m).data (idx.set m 0) + eps))⁻¹ *
                sc.data (bidx sc.shape idx))) := by
  constructor
  · simp only [batch_normalization, bop_shape, Tensor.map_shape, Tensor.meanAlong_shape,
      Tensor.varAlong_shape, h1, bshape_self, bshape_setOne_full, h2]
  · intro idx hv
    simp only [batch_normalization, bop_data, bop_shape, Tensor.map_data, Tensor.map_shape,
      Tensor.meanAlong_shape, Tensor.varAlong_shape, h1, bshape_self, bshape_setOne_full, h2]
    simp only [bidx_valid hv, bidx_set_one m hv]

/-! ## Concrete tensors used by the witnesses -/

/-- A concrete rank-4 rational tensor of shape (2,3,4,5). -/
def x2345 : Tensor ℚ := ⟨[2, 3, 4, 5], fun _ => 0⟩

/-- A concrete rank-1 rational tensor. -/
def mask1 : Tensor ℚ := ⟨[4], fun _ => 1⟩

/-- A concrete rank-2 rational mask of shape (1,3) with a zero at position 2. -/
def mask2 : Tensor ℚ := ⟨[1, 3], fun idx => if idx.getD 1 0 = 2 then 0 else 1⟩

/-- A concrete rank-3 rational mask of shape (1,2,2). -/
def mask3 : Tensor ℚ := ⟨[1, 2, 2], fun idx => if idx.getD 2 0 = 0 then 1 else 0⟩

/-! ## Claims -/

/-- C7: `shape_list` on a plain in-memory array returns exactly the array's
dimension sizes as a list of concrete integers; on a tensor with no rank
information at all it returns the dynamic-shape handle unchanged; otherwise
it returns, per axis, the statically known integer size if present and the
dynamic placeholder `tf.shape(t)[i]` if not. -/
theorem shape_list_spec_C7 (s : List Nat) (l : List TfDim) :
    shape_list (.ndarray s) = .dims (s.map Dim.static) ∧
    shape_list (.tensor none) = .dynamicHandle ∧
    (∃ out, shape_list (.tensor (some l)) = .dims out ∧ out.length = l.length ∧
      ∀ i, i < l.length →
        out.getD i (Dim.static 0) =
          (match l.getD i TfDim.unknown with
           | TfDim.known n => Dim.static n
           | TfDim.unknown => Dim.dynamic i)) := by
  refine ⟨rfl, rfl, _, rfl, by simp [shape_list], ?_⟩
  intro i hi
  have hi' : i < (l.enum.map (fun p =>
      match p.2 with
      | TfDim.known n => Dim.static n
      | TfDim.unknown => Dim.dynamic p.1)).length := by
    simpa using hi
  rw [List.getD_eq_getElem _ _ hi', List.getElem_map, List.getElem_enum,
    List.getD_eq_getElem l TfDim.unknown hi]

/-- Witness for C7 at concrete inputs: a static/dynamic mixed tensor shape
and a plain array shape. -/
theorem shape_list_spec_C7_witness :
    (0 : Nat) < 2 ∧
    shape_list (.ndarray [4, 5]) = .dims [Dim.static 4, Dim.static 5] ∧
    (∃ out, shape_list (.tensor (some [TfDim.known 3, TfDim.unknown])) = .dims out ∧
      out.getD 0 (Dim.static 0) = Dim.static 3) := by
  have h := shape_list_spec_C7 [4, 5] [TfDim.known 3, TfDim.unknown]
  refine ⟨by decide, h.1, ?_⟩
  obtain ⟨out, hout, hlen, hget⟩ := h.2.2
  exact ⟨out, hout, by simpa using hget 0 (by decide)⟩

/-- C8: `flatten` with equal resolved `start_dim` and `end_dim` (negative
indices resolved by adding the rank) returns the input unchanged. -/
theorem flatten_identity_C8 {α : Type} (x : Tensor α) (start_dim end_dim : Int)
    (h : (if start_dim < 0 then start_dim + x.rank else start_dim) =
         (if end_dim < 0 then end_dim + x.rank else end_dim)) :
    flatten x start_dim end_dim = x := by
  unfold flatten
  rw [if_pos h]

/-- Witness for C8: `flatten(x, 0, 0)` on a tensor of shape (2,3,4,5) is the
identity. -/
theorem flatten_identity_C8_witness :
    ((if (0 : Int) < 0 then (0 : Int) + x2345.rank else 0) =
     (if (0 : Int) < 0 then (0 : Int) + x2345.rank else 0)) ∧
    flatten x2345 0 0 = x2345 ∧ x2345.shape = [2, 3, 4, 5] :=
  ⟨rfl, flatten_identity_C8 x2345 0 0 rfl, rfl⟩

/-- C6: `invert_attention_mask` on an input whose rank is neither 2 nor 3
fails (the result variable is never assigned on any branch, modelled by
`none`) instead of raising an explicit unsupported-rank validation error. -/
theorem invert_attention_mask_unbound_C6 {α : Type} [Ring α] (dtypeMin : α)
    (m : Tensor α) (h2 : m.rank ≠ 2) (h3 : m.rank ≠ 3) :
    invert_attention_mask dtypeMin m = none := by
  unfold invert_attention_mask
  rw [if_neg h3, if_neg h2]
  rfl

/-- Witness for C6 at a concrete rank-1 mask. -/
theorem invert_attention_mask_unbound_C6_witness :
    mask1.rank ≠ 2 ∧ mask1.rank ≠ 3 ∧
    invert_attention_mask (-100 : ℚ) mask1 = none :=
  ⟨by decide, by decide,
    invert_attention_mask_unbound_C6 (-100 : ℚ) mask1 (by decide) (by decide)⟩

/-- C4: `functional_layernorm` raises `NotImplementedError` if and only if
weight is not rank 1, or bias is not rank 1, or axis is not a single
integer; when all three preconditions hold it computes the normalization
without raising that error. -/
theorem functional_layernorm_error_C4 (inputs weight bias : Tensor ℝ) (eps : ℝ)
    (axis : AxisArg) :
    ((∃ msg, functional_layernorm inputs weight bias eps axis = .error msg) ↔
      (weight.rank ≠ 1 ∨ bias.rank ≠ 1 ∨ axis.isInt = false)) ∧
    ((∃ t, functional_layernorm inputs weight bias eps axis = .ok t) ↔
      (weight.rank = 1 ∧ bias.rank = 1 ∧ axis.isInt = true)) := by
  cases axis with
  | axes l =>
    constructor
    · simp [functional_layernorm, AxisArg.isInt]
    · simp [functional_layernorm, AxisArg.isInt]
  | int a =>
    by_cases hw : weight.rank ≠ 1 ∨ bias.rank ≠ 1
    · constructor
      · simp only [functional_layernorm, if_pos hw, AxisArg.isInt]
        constructor
        · intro _
          tauto
        · intro _
          exact ⟨layernormErrMsg, rfl⟩
      · simp only [functional_layernorm, if_pos hw, AxisArg.isInt]
        constructor
        · intro ⟨t, ht⟩
          exact absurd ht (by simp)
        · intro ⟨h1, h2, _⟩
          exact absurd hw (by simp [h1, h2])
    · constructor
      · simp only [functional_layernorm, if_neg hw, AxisArg.isInt]
        constructor
        · intro ⟨msg, hmsg⟩
          exact absurd hmsg (by simp)
        · intro hcond
          push_neg at hw
          rcases hcond with h | h | h
          · exact absurd hw.1 h
          · exact absurd hw.2 h
          · simp at h
      · simp only [functional_layernorm, if_neg hw, AxisArg.isInt]
        push_neg at hw
        constructor
        · intro _
          exact ⟨hw.1, hw.2, by trivial⟩
        · intro _
          exact ⟨_, rfl⟩

/-- C1: for a rank-2 mask of shape (batch, sequence), `invert_attention_mask`
returns a tensor of shape (batch, 1, 1, sequence), and for a rank-3 mask of
shape (batch, seq_q, seq_k) a tensor of shape (batch, 1, seq_q, seq_k), whose
value at each position equals (1 - mask) * dtype_min: 0 where the mask is 1
and dtype_min where the mask is 0. -/
theorem invert_attention_mask_spec_C1 {α : Type} [Ring α] (dtypeMin : α) (m : Tensor α)
    (b s q k : Nat) :
    (m.shape = [b, s] →
      ∃ t, invert_attention_mask dtypeMin m = some t ∧
        t.shape = [b, 1, 1, s] ∧
        ∀ i j, t.data [i, 0, 0, j] = (1 - m.data [i, j]) * dtypeMin ∧
          (m.data [i, j] = 1 → t.data [i, 0, 0, j] = 0) ∧
          (m.data [i, j] = 0 → t.data [i, 0, 0, j] = dtypeMin)) ∧
    (m.shape = [b, q, k] →
      ∃ t, invert_attention_mask dtypeMin m = some t ∧
        t.shape = [b, 1, q, k] ∧
        ∀ i j l, t.data [i, 0, j, l] = (1 - m.data [i, j, l]) * dtypeMin ∧
          (m.data [i, j, l] = 1 → t.data [i, 0, j, l] = 0) ∧
          (m.data [i, j, l] = 0 → t.data [i, 0, j, l] = dtypeMin)) := by
  constructor
  · intro hsh
    have hrank : m.rank = 2 := by simp [Tensor.rank, hsh]
    refine ⟨(expandRank2 m).map fun v => (1 - v) * dtypeMin, ?_, ?_, ?_⟩
    · unfold invert_attention_mask
      rw [if_neg (by omega), if_pos hrank]
      rfl
    · simp [expandRank2, hsh]
    · intro i j
      refine ⟨rfl, ?_, ?_⟩
      · intro h1
        show (1 - m.data [i, j]) * dtypeMin = 0
        rw [h1, sub_self, zero_mul]
      · intro h0
        show (1 - m.data [i, j]) * dtypeMin = dtypeMin
        rw [h0, sub_zero, one_mul]
  · intro hsh
    have hrank : m.rank = 3 := by simp [Tensor.rank, hsh]
    refine ⟨(expandRank3 m).map fun v => (1 - v) * dtypeMin, ?_, ?_, ?_⟩
    · unfold invert_attention_mask
      rw [if_pos hrank]
      rfl
    · simp [expandRank3, hsh]
    · intro i j l
      refine ⟨rfl, ?_, ?_⟩
      · intro h1
        show (1 - m.data [i, j, l]) * dtypeMin = 0
        rw [h1, sub_self, zero_mul]
      · intro h0
        show (1 - m.data [i, j, l]) * dtypeMin = dtypeMin
        rw [h0, sub_zero, one_mul]

/-- Witness for C1 at a concrete rank-2 mask (all ones except position 2)
and a concrete rank-3 mask. -/
theorem invert_attention_mask_spec_C1_witness :
    mask2.shape = [1, 3] ∧ mask3.shape = [1, 2, 2] ∧
    (∃ t, invert_attention_mask (-100 : ℚ) mask2 = some t ∧
      t.shape = [1, 1, 1, 3] ∧ t.data [0, 0, 0, 2] = -100 ∧ t.data [0, 0, 0, 0] = 0) ∧
    (∃ t, invert_attention_mask (-100 : ℚ) mask3 = some t ∧ t.shape = [1, 1, 2, 2]) := by
  refine ⟨rfl, rfl, ?_, ?_⟩
  · obtain ⟨t, ht, hsh, hdata⟩ :=
      (invert_attention_mask_spec_C1 (-100 : ℚ) mask2 1 3 0 0).1 rfl
    exact ⟨t, ht, hsh, (hdata 0 2).2.2 (by norm_num [mask2]),
      (hdata 0 0).2.1 (by norm_num [mask2])⟩
  · obtain ⟨t, ht, hsh, _⟩ :=
      (invert_attention_mask_spec_C1 (-100 : ℚ) mask3 1 0 2 2).2 rfl
    exact ⟨t, ht, hsh⟩

/-- C3: for resolved in-range indices with start_dim < end_dim, `flatten`
returns a reshape of the input whose shape keeps all axes before start_dim,
collapses axes start_dim..end_dim (inclusive) into one axis of size equal to
the product of their sizes, and keeps all axes after end_dim; the row-major
flat contents are preserved. -/
theorem flatten_spec_C3 {α : Type} (x : Tensor α) (start_dim end_dim : Int) (s e : Nat)
    (hs : (if start_dim < 0 then start_dim + (x.rank : Int) else start_dim) = (s : Int))
    (he : (if end_dim < 0 then end_dim + (x.rank : Int) else end_dim) = (e : Int))
    (hse : s < e) (her : e < x.rank) :
    (flatten x start_dim end_dim).shape =
      x.shape.take s ++ [((x.shape.drop s).take (e + 1 - s)).prod] ++ x.shape.drop (e + 1) ∧
    ∀ k, k < x.shape.prod → (flatten x start_dim end_dim).flatGet k = x.flatGet k := by
  have hne : ¬((if start_dim < 0 then start_dim + (x.rank : Int) else start_dim) =
      (if end_dim < 0 then end_dim + (x.rank : Int) else end_dim)) := by
    rw [hs, he]
    intro hcast
    have : s = e := by exact_mod_cast hcast
    omega
  have hsn : (if start_dim < 0 then start_dim + (x.rank : Int) else start_dim).toNat = s := by
    rw [hs]; simp
  have hen : (if end_dim < 0 then end_dim + (x.rank : Int) else end_dim).toNat = e := by
    rw [he]; simp
  have hflat : flatten x start_dim end_dim =
      x.reshape (x.shape.take s ++ [((x.shape.drop s).take (e + 1 - s)).prod] ++
        x.shape.drop (e + 1)) := by
    simp only [flatten]
    rw [if_neg hne, hsn, hen]
  have hsplit : x.shape = x.shape.take s ++ x.shape.drop s :=
    (List.take_append_drop s x.shape).symm
  have hdrop : x.shape.drop s =
      (x.shape.drop s).take (e + 1 - s) ++ x.shape.drop (e + 1) := by
    have h0 := (List.take_append_drop (e + 1 - s) (x.shape.drop s)).symm
    rw [List.drop_drop] at h0
    have harith : s + (e + 1 - s) = e + 1 := by omega
    rw [harith] at h0
    exact h0
  have hprodsplit : x.shape.prod =
      (x.shape.take s).prod *
        (((x.shape.drop s).take (e + 1 - s)).prod * (x.shape.drop (e + 1)).prod) := by
    conv_lhs => rw [hsplit]
    rw [List.prod_append]
    congr 1
    conv_lhs => rw [hdrop]
    rw [List.prod_append]
  have houtprod : (x.shape.take s ++ [((x.shape.drop s).take (e + 1 - s)).prod] ++
      x.shape.drop (e + 1)).prod = x.shape.prod := by
    rw [List.prod_append, List.prod_append, List.prod_singleton, hprodsplit]
    ring
  constructor
  · rw [hflat, Tensor.reshape_shape]
  · intro k hk
    rw [hflat]
    show x.data (delinIndex x.shape (linIndex _ (delinIndex _ k))) = x.data (delinIndex x.shape k)
    simp only [Tensor.reshape_shape]
    rw [lin_delin _ _ (by rw [houtprod]; exact hk)]

/-- Witness for C3: flatten(x, 1, 2) on a tensor of shape (2,3,4,5) produces
shape (2,12,5). -/
theorem flatten_spec_C3_witness :
    ((if (1 : Int) < 0 then 1 + (x2345.rank : Int) else 1) = ((1 : Nat) : Int)) ∧
    ((if (2 : Int) < 0 then 2 + (x2345.rank : Int) else 2) = ((2 : Nat) : Int)) ∧
    (1 : Nat) < 2 ∧ (2 : Nat) < x2345.rank ∧
    (flatten x2345 1 2).shape = [2, 12, 5] := by
  have h := flatten_spec_C3 x2345 1 2 1 2 (by decide) (by decide) (by decide) (by decide)
  refine ⟨by decide, by decide, by decide, by decide, ?_⟩
  rw [h.1]
  rfl

@[simp] theorem Tensor.map_rank {α β : Type} (f : α → β) (t : Tensor α) :
    (t.map f).rank = t.rank := rfl

/-- C2: `stable_softmax` equals the standard softmax applied to
`logits + 1e-9` along the axis; along that axis the output sums to 1 (its
axis has nonzero size), it is elementwise equal (in exact real arithmetic,
hence within 1e-6) to the standard softmax of the original logits by shift
invariance, and an unspecified axis means the last dimension. -/
theorem stable_softmax_spec_C2 (logits : Tensor ℝ) (axis : Option Int)
    (hn : 1 ≤ logits.shape.getD (resolveAxis (axis.getD (-1)) logits.rank) 1) :
    stable_softmax logits axis = tfSoftmax (logits.map fun v => v + 1e-9) axis ∧
    (∀ idx : List Nat, ∑ j ∈ Finset.range
          (logits.shape.getD (resolveAxis (axis.getD (-1)) logits.rank) 1),
        (stable_softmax logits axis).data
          (idx.set (resolveAxis (axis.getD (-1)) logits.rank) j) = 1) ∧
    (∀ idx, (stable_softmax logits axis).data idx = (tfSoftmax logits axis).data idx) ∧
    stable_softmax logits none = stable_softmax logits (some ((logits.rank : Int) - 1)) := by
  refine ⟨rfl, ?_, ?_, ?_⟩
  · intro idx
    simp only [stable_softmax, tfSoftmax, Tensor.map_rank, Tensor.map_shape, Tensor.map_data,
      List.set_set]
    rw [← Finset.sum_div]
    apply div_self
    apply ne_of_gt
    apply Finset.sum_pos
    · intro i _
      exact Real.exp_pos _
    · rw [Finset.nonempty_range_iff]
      omega
  · intro idx
    simp only [stable_softmax, tfSoftmax, Tensor.map_rank, Tensor.map_shape, Tensor.map_data]
    have hfac : ∀ a : ℝ, Real.exp (a + 1e-9) = Real.exp a * Real.exp (1e-9) := by
      intro a
      rw [Real.exp_add]
    simp only [hfac]
    rw [← Finset.sum_mul]
    exact mul_div_mul_right _ _ (ne_of_gt (Real.exp_pos _))
  · have hax : resolveAxis (-1) logits.rank =
        resolveAxis ((logits.rank : Int) - 1) logits.rank := by
      rcases Nat.eq_zero_or_pos logits.rank with h | h
      · rw [h]
        norm_num
      · rw [resolveAxis_neg_one, resolveAxis_last _ h]
    simp only [stable_softmax, tfSoftmax, Tensor.map_rank, Tensor.map_shape, Tensor.map_data,
      Option.getD_none, Option.getD_some]
    rw [hax]

/-- A concrete rank-1 real tensor for the softmax witness. -/
noncomputable def logits2 : Tensor ℝ := ⟨[2], fun _ => 0⟩

/-- Witness for C2 at a concrete rank-1 tensor of size 2. -/
theorem stable_softmax_spec_C2_witness :
    1 ≤ logits2.shape.getD (resolveAxis ((none : Option Int).getD (-1)) logits2.rank) 1 ∧
    (∀ idx : List Nat, ∑ j ∈ Finset.range
          (logits2.shape.getD (resolveAxis ((none : Option Int).getD (-1)) logits2.rank) 1),
        (stable_softmax logits2 none).data
          (idx.set (resolveAxis ((none : Option Int).getD (-1)) logits2.rank) j) = 1) ∧
    stable_softmax logits2 none = stable_softmax logits2 (some ((logits2.rank : Int) - 1)) := by
  have h := stable_softmax_spec_C2 logits2 none (by decide)
  exact ⟨by decide, h.2.1, h.2.2.2⟩

/-! ## Shape lemmas for the layernorm parameter broadcasts -/

theorem getD_default_eq {s : List Nat} {m : Nat} (hm : m < s.length) :
    s.getD m 0 = s.getD m 1 := by
  rw [List.getD_eq_getElem s 0 hm, List.getD_eq_getElem s 1 hm]

theorem singleton_as_param (r C : Nat) (hr : 1 ≤ r) :
    padLeft [C] r = (List.replicate r 1).set (r - 1) C := by
  rw [padLeft_singleton, replicate_set_last r C hr]

theorem bshape_scale_param (s : List Nat) (m C : Nat) (hm : m < s.length)
    (hC : s.getD m 1 = C) :
    bshape (s.set m 1) ((List.replicate s.length 1).set m C) = s := by
  rw [bshape_setOne_param, ← hC, ← getD_default_eq hm]
  exact set_getD_self hm

theorem bshape_offset_param (s : List Nat) (m C : Nat) (hm : m < s.length)
    (hC : s.getD m 1 = C) :
    bshape ((List.replicate s.length 1).set m C) s = s :=
  bshape_param_full s m C (by rw [getD_default_eq hm]; exact hC)

theorem padLeft_of_le (l : List Nat) (r : Nat) (h : r ≤ l.length) : padLeft l r = l := by
  unfold padLeft
  rw [Nat.sub_eq_zero_of_le h]
  rfl

theorem bshape_scale_singleton (s : List Nat) (C : Nat) (hr : 1 ≤ s.length)
    (hC : s.getD (s.length - 1) 1 = C) :
    bshape (s.set (s.length - 1) 1) [C] = s := by
  unfold bshape
  have hmax : max (s.set (s.length - 1) 1).length ([C] : List Nat).length = s.length := by
    simp
    omega
  rw [hmax]
  have hpad : padLeft (s.set (s.length - 1) 1) s.length = s.set (s.length - 1) 1 :=
    padLeft_of_le _ _ (by simp)
  rw [hpad, singleton_as_param s.length C hr, ← bshape_eq_zipWith (by simp)]
  exact bshape_scale_param s (s.length - 1) C (by omega) hC

theorem bshape_offset_singleton (s : List Nat) (C : Nat) (hr : 1 ≤ s.length)
    (hC : s.getD (s.length - 1) 1 = C) :
    bshape [C] s = s := by
  unfold bshape
  have hmax : max ([C] : List Nat).length s.length = s.length := by
    simp
    omega
  rw [hmax, padLeft_self, singleton_as_param s.length C hr, ← bshape_eq_zipWith (by simp)]
  exact bshape_offset_param s (s.length - 1) C (by omega) hC

theorem reshape_param_data_r {α : Type} (w : Tensor α) (C r : Nat) (s idx : List Nat)
    (hrs : s.length = r) (hw : w.shape = [C]) (hs : 1 ≤ r)
    (hC : s.getD (r - 1) 0 = C) (hv : ValidIdx s idx) :
    (w.reshape (List.replicate (r - 1) 1 ++ [C])).data
        (bidx (List.replicate (r - 1) 1 ++ [C]) idx) = w.data (bidx [C] idx) := by
  subst hrs
  exact reshape_param_data w C s idx hw hs hC hv

theorem roundtrip_bound (y eps : ℝ) (heps : 0 < eps) :
    |y * ((Real.sqrt (1 + eps))⁻¹ * 1) + (0 - 0 * ((Real.sqrt (1 + eps))⁻¹ * 1)) - y| ≤
      eps * |y| := by
  have h1 := sqrt_inv_le_one eps heps
  have h2 := sqrt_inv_sub_le eps heps
  have hre : y * ((Real.sqrt (1 + eps))⁻¹ * 1) +
      (0 - 0 * ((Real.sqrt (1 + eps))⁻¹ * 1)) - y
      = y * ((Real.sqrt (1 + eps))⁻¹ - 1) := by ring
  have hnp : (Real.sqrt (1 + eps))⁻¹ - 1 ≤ 0 := by linarith
  rw [hre, abs_mul, abs_of_nonpos hnp]
  have h3 : -((Real.sqrt (1 + eps))⁻¹ - 1) = 1 - (Real.sqrt (1 + eps))⁻¹ := by ring
  rw [h3]
  nlinarith [abs_nonneg y]

/-! ## C5: the reshape condition of functional_layernorm -/

/-- A concrete rank-2 real input for the C5 counterexample. -/
noncomputable def inputsC5 : Tensor ℝ := ⟨[2, 3], fun _ => 0⟩

/-- A concrete rank-1 real parameter for the C5 counterexample. -/
noncomputable def weightC5 : Tensor ℝ := ⟨[3], fun _ => 1⟩

/-- C5 counterexample: passing axis = 1, which IS the last axis of the
rank-2 input, still takes the reshape branch (the code tests the literal
value -1, not "last axis"), so weight is not used as a rank-1 vector. -/
theorem layernorm_reshape_C5_counterexample :
    (1 : Int) = (inputsC5.rank : Int) - 1 ∧
    (layernormEffectiveParam inputsC5 weightC5 1).shape = [1, 3] ∧
    layernormEffectiveParam inputsC5 weightC5 1 ≠ weightC5 := by
  have hsh : (layernormEffectiveParam inputsC5 weightC5 1).shape = [1, 3] := by
    unfold layernormEffectiveParam
    rw [if_pos (by norm_num)]
    rfl
  refine ⟨by decide, hsh, ?_⟩
  intro heq
  have h2 := congrArg Tensor.shape heq
  rw [hsh] at h2
  have h3 : weightC5.shape = [3] := rfl
  rw [h3] at h2
  exact absurd h2 (by decide)

/-- C5 (amended): weight and bias are reshaped to the rank of the inputs
with singleton dimensions everywhere except the resolved axis position if
and only if the axis argument is not the literal value -1; a positive axis
equal to rank - 1 (also denoting the last axis) still takes the reshape
branch, while the literal -1 leaves the parameters as rank-1 vectors. -/
theorem layernorm_reshape_C5_amended (inputs p : Tensor ℝ) (axis : Int) :
    (axis = -1 → layernormEffectiveParam inputs p axis = p) ∧
    (axis ≠ -1 →
      (layernormEffectiveParam inputs p axis).shape =
        (List.range inputs.rank).map fun i =>
          if i = resolveAxis axis inputs.rank
          then inputs.shape.getD (resolveAxis axis inputs.rank) 1 else 1) := by
  constructor
  · intro h
    simp [layernormEffectiveParam, h]
  · intro h
    unfold layernormEffectiveParam
    rw [if_pos h, Tensor.reshape_shape, layernormParamShape_resolve]
    apply List.ext_getElem (by simp)
    intro n h1 h2
    rw [List.getElem_set, List.getElem_map, List.getElem_range]
    by_cases hn : resolveAxis axis inputs.rank = n
    · rw [if_pos hn, if_pos hn.symm]
    · rw [if_neg hn, if_neg (fun hh => hn hh.symm), List.getElem_replicate]

/-- Witness for the amended C5 at a concrete input, both for axis = -1
(no reshape) and for axis = 0 (reshape). -/
theorem layernorm_reshape_C5_amended_witness :
    ((-1 : Int) = -1) ∧
    layernormEffectiveParam inputsC5 weightC5 (-1) = weightC5 ∧
    ((0 : Int) ≠ -1) ∧
    (layernormEffectiveParam inputsC5 weightC5 0).shape =
      ((List.range inputsC5.rank).map fun i =>
        if i = resolveAxis 0 inputsC5.rank
        then inputsC5.shape.getD (resolveAxis 0 inputsC5.rank) 1 else 1) :=
  ⟨rfl, (layernorm_reshape_C5_amended inputsC5 weightC5 (-1)).1 rfl, by decide,
    (layernorm_reshape_C5_amended inputsC5 weightC5 0).2 (by decide)⟩

/-- C9: for input already normalized along the axis (mean 0, variance 1),
`functional_layernorm` with all-ones weight and all-zeros bias returns the
input unchanged up to the epsilon in the variance denominator: every entry
moves by at most eps times its magnitude. -/
theorem functional_layernorm_roundtrip_C9 (x : Tensor ℝ) (axis : Int) (eps : ℝ) (C : Nat)
    (heps : 0 < eps)
    (hlo : -(x.rank : Int) ≤ axis) (hhi : axis < (x.rank : Int))
    (hC : x.shape.getD (resolveAxis axis x.rank) 1 = C)
    (hmean : ∀ idx, ValidIdx (x.shape.set (resolveAxis axis x.rank) 1) idx →
      (x.meanAlong (resolveAxis axis x.rank)).data idx = 0)
    (hvar : ∀ idx, ValidIdx (x.shape.set (resolveAxis axis x.rank) 1) idx →
      (x.varAlong (resolveAxis axis x.rank)).data idx = 1) :
    ∃ t, functional_layernorm x (onesTensor [C]) (zerosTensor [C]) eps (.int axis) = .ok t ∧
      t.shape = x.shape ∧
      ∀ idx, ValidIdx x.shape idx → |t.data idx - x.data idx| ≤ eps * |x.data idx| := by
  have hax : resolveAxis axis x.rank < x.rank := resolveAxis_lt hlo hhi
  have hr : 1 ≤ x.rank := by omega
  have hrankw : ¬((onesTensor [C]).rank ≠ 1 ∨ (zerosTensor [C]).rank ≠ 1) := by
    simp [Tensor.rank, onesTensor, zerosTensor]
  have hWdata : ∀ j, (layernormEffectiveParam x (onesTensor [C]) axis).data j = 1 := by
    intro j
    unfold layernormEffectiveParam
    split
    · rfl
    · rfl
  have hBdata : ∀ j, (layernormEffectiveParam x (zerosTensor [C]) axis).data j = 0 := by
    intro j
    unfold layernormEffectiveParam
    split
    · rfl
    · rfl
  have hWshape : bshape (x.shape.set (resolveAxis axis x.rank) 1)
      (layernormEffectiveParam x (onesTensor [C]) axis).shape = x.shape := by
    unfold layernormEffectiveParam
    split
    · rw [Tensor.reshape_shape, layernormParamShape_resolve, hC]
      exact bshape_scale_param x.shape (resolveAxis axis x.rank) C hax hC
    · show bshape (x.shape.set (resolveAxis axis x.rank) 1) [C] = x.shape
      rename_i hne
      have haxeq : axis = -1 := not_not.mp hne
      subst haxeq
      rw [resolveAxis_neg_one] at hC ⊢
      exact bshape_scale_singleton x.shape C hr hC
  have hBshape : bshape (layernormEffectiveParam x (zerosTensor [C]) axis).shape
      x.shape = x.shape := by
    unfold layernormEffectiveParam
    split
    · rw [Tensor.reshape_shape, layernormParamShape_resolve, hC]
      exact bshape_offset_param x.shape (resolveAxis axis x.rank) C hax hC
    · show bshape [C] x.shape = x.shape
      rename_i hne
      have haxeq : axis = -1 := not_not.mp hne
      subst haxeq
      rw [resolveAxis_neg_one] at hC
      exact bshape_offset_singleton x.shape C hr hC
  have heval := batch_normalization_eval x
    (layernormEffectiveParam x (zerosTensor [C]) axis)
    (layernormEffectiveParam x (onesTensor [C]) axis)
    eps (resolveAxis axis x.rank) hWshape hBshape
  refine ⟨_, ?_, heval.1, ?_⟩
  · simp only [functional_layernorm]
    rw [if_neg hrankw]
  · intro idx hv
    rw [heval.2 idx hv, hWdata, hBdata,
      hvar _ (validIdx_set_zero _ hv), hmean _ (validIdx_set_zero _ hv)]
    exact roundtrip_bound (x.data idx) eps heps

/-- A concrete normalized rank-1 real tensor: entries 1 and -1 (mean 0,
variance 1 along axis 0). -/
noncomputable def xW : Tensor ℝ := ⟨[2], fun idx => if idx.getD 0 0 = 0 then 1 else -1⟩

/-- Witness for C9 at the concrete normalized tensor `xW` with axis -1 and
eps = 1e-5. -/
theorem functional_layernorm_roundtrip_C9_witness :
    (0 : ℝ) < 1e-5 ∧
    ∃ t, functional_layernorm xW (onesTensor [2]) (zerosTensor [2]) 1e-5 (.int (-1)) = .ok t ∧
      t.shape = xW.shape ∧
      ∀ idx, ValidIdx xW.shape idx → |t.data idx - xW.data idx| ≤ 1e-5 * |xW.data idx| := by
  have hmean : ∀ idx, ValidIdx (xW.shape.set (resolveAxis (-1) xW.rank) 1) idx →
      (xW.meanAlong (resolveAxis (-1) xW.rank)).data idx = 0 := by
    have hax : resolveAxis (-1) xW.rank = 0 := by decide
    rw [hax]
    intro idx hvi
    obtain ⟨hlen, _⟩ := hvi
    have hlen1 : idx.length = 1 := by simpa using hlen
    obtain ⟨a, ha⟩ := List.length_eq_one.mp hlen1
    subst ha
    show (∑ j ∈ Finset.range (xW.shape.getD 0 1), xW.data ([a].set 0 j)) /
      (xW.shape.getD 0 1 : ℝ) = 0
    norm_num [xW, Finset.sum_range_succ]
  have hvar : ∀ idx, ValidIdx (xW.shape.set (resolveAxis (-1) xW.rank) 1) idx →
      (xW.varAlong (resolveAxis (-1) xW.rank)).data idx = 1 := by
    have hax : resolveAxis (-1) xW.rank = 0 := by decide
    rw [hax]
    intro idx hvi
    obtain ⟨hlen, _⟩ := hvi
    have hlen1 : idx.length = 1 := by simpa using hlen
    obtain ⟨a, ha⟩ := List.length_eq_one.mp hlen1
    subst ha
    show (∑ j ∈ Finset.range (xW.shape.getD 0 1),
        (xW.data ([a].set 0 j) - (xW.meanAlong 0).data [a]) ^ 2) /
      (xW.shape.getD 0 1 : ℝ) = 1
    norm_num [xW, Tensor.meanAlong, Finset.sum_range_succ]
  exact ⟨by norm_num,
    functional_layernorm_roundtrip_C9 xW (-1) 1e-5 2 (by norm_num)
      (by decide) (by decide) (by decide) hmean hvar⟩

/-- C10: for a rank-1 weight and bias of matching size, calling
`functional_layernorm` with the positive index of the last axis
(axis = rank - 1) returns the same tensor as calling it with axis = -1,
even though only the former takes the parameter-reshaping branch: the
reshaped (1, ..., 1, C) parameters broadcast identically to the rank-1
vectors. -/
theorem functional_layernorm_last_axis_C10 (x w b : Tensor ℝ) (eps : ℝ) (C : Nat)
    (hr : 1 ≤ x.rank) (hw : w.shape = [C]) (hb : b.shape = [C])
    (hC : x.shape.getD (x.rank - 1) 1 = C) :
    ∃ t1 t2,
      functional_layernorm x w b eps (.int ((x.rank : Int) - 1)) = .ok t1 ∧
      functional_layernorm x w b eps (.int (-1)) = .ok t2 ∧
      t1.shape = t2.shape ∧
      ∀ idx, ValidIdx t1.shape idx → t1.data idx = t2.data idx := by
  have hrank : ¬(w.rank ≠ 1 ∨ b.rank ≠ 1) := by
    simp [Tensor.rank, hw, hb]
  have hne : ((x.rank : Int) - 1) ≠ -1 := by omega
  have haxA : resolveAxis ((x.rank : Int) - 1) x.rank = x.rank - 1 := resolveAxis_last _ hr
  have haxB : resolveAxis (-1) x.rank = x.rank - 1 := resolveAxis_neg_one _
  have hPshape : layernormParamShape x ((x.rank : Int) - 1) =
      (List.replicate x.rank 1).set (x.rank - 1) C := by
    rw [layernormParamShape_resolve, haxA, hC]
  have hm : x.rank - 1 < x.rank := by omega
  have hfA : functional_layernorm x w b eps (.int ((x.rank : Int) - 1)) =
      .ok (batch_normalization x (x.meanAlong (x.rank - 1)) (x.varAlong (x.rank - 1))
        (b.reshape ((List.replicate x.rank 1).set (x.rank - 1) C))
        (w.reshape ((List.replicate x.rank 1).set (x.rank - 1) C)) eps) := by
    simp only [functional_layernorm]
    rw [if_neg hrank, haxA]
    unfold layernormEffectiveParam
    rw [if_pos hne, if_pos hne, hPshape]
  have hfB : functional_layernorm x w b eps (.int (-1)) =
      .ok (batch_normalization x (x.meanAlong (x.rank - 1)) (x.varAlong (x.rank - 1))
        b w eps) := by
    simp only [functional_layernorm]
    rw [if_neg hrank, haxB]
    unfold layernormEffectiveParam
    rw [if_neg (by norm_num : ¬((-1 : Int) ≠ -1)), if_neg (by norm_num : ¬((-1 : Int) ≠ -1))]
  have h1A : bshape (x.shape.set (x.rank - 1) 1)
      (w.reshape ((List.replicate x.rank 1).set (x.rank - 1) C)).shape = x.shape := by
    rw [Tensor.reshape_shape]
    exact bshape_scale_param x.shape (x.rank - 1) C hm hC
  have h2A : bshape (b.reshape ((List.replicate x.rank 1).set (x.rank - 1) C)).shape
      x.shape = x.shape := by
    rw [Tensor.reshape_shape]
    exact bshape_offset_param x.shape (x.rank - 1) C hm hC
  have h1B : bshape (x.shape.set (x.rank - 1) 1) w.shape = x.shape := by
    rw [hw]
    exact bshape_scale_singleton x.shape C hr hC
  have h2B : bshape b.shape x.shape = x.shape := by
    rw [hb]
    exact bshape_offset_singleton x.shape C hr hC
  have hevalA := batch_normalization_eval x
    (b.reshape ((List.replicate x.rank 1).set (x.rank - 1) C))
    (w.reshape ((List.replicate x.rank 1).set (x.rank - 1) C))
    eps (x.rank - 1) h1A h2A
  have hevalB := batch_normalization_eval x b w eps (x.rank - 1) h1B h2B
  refine ⟨_, _, hfA, hfB, ?_, ?_⟩
  · rw [hevalA.1, hevalB.1]
  · intro idx hv
    rw [hevalA.1] at hv
    have hC0 : x.shape.getD (x.rank - 1) 0 = C := by
      rw [getD_default_eq (by show x.rank - 1 < x.rank; omega)]
      exact hC
    have hscW : (w.reshape ((List.replicate x.rank 1).set (x.rank - 1) C)).data
        (bidx ((List.replicate x.rank 1).set (x.rank - 1) C) idx) = w.data (bidx [C] idx) := by
      rw [replicate_set_last x.rank C hr]
      exact reshape_param_data_r w C x.rank x.shape idx rfl hw hr hC0 hv
    have hscB : (b.reshape ((List.replicate x.rank 1).set (x.rank - 1) C)).data
        (bidx ((List.replicate x.rank 1).set (x.rank - 1) C) idx) = b.data (bidx [C] idx) := by
      rw [replicate_set_last x.rank C hr]
      exact reshape_param_data_r b C x.rank x.shape idx rfl hb hr hC0 hv
    rw [hevalA.2 idx hv, hevalB.2 idx hv]
    simp only [Tensor.reshape_shape]
    rw [hscW, hscB, hw, hb]

/-- Witness for C10 at a concrete rank-2 input of shape (2,3) with rank-1
parameters of size 3. -/
theorem functional_layernorm_last_axis_C10_witness :
    1 ≤ inputsC5.rank ∧ weightC5.shape = [3] ∧
    inputsC5.shape.getD (inputsC5.rank - 1) 1 = 3 ∧
    ∃ t1 t2,
      functional_layernorm inputsC5 weightC5 weightC5 1e-5
        (.int ((inputsC5.rank : Int) - 1)) = .ok t1 ∧
      functional_layernorm inputsC5 weightC5 weightC5 1e-5 (.int (-1)) = .ok t2 ∧
      t1.shape = t2.shape ∧
      ∀ idx, ValidIdx t1.shape idx → t1.data idx = t2.data idx :=
  ⟨by decide, rfl, by decide,
    functional_layernorm_last_axis_C10 inputsC5 weightC5 weightC5 1e-5 3
      (by decide) rfl rfl (by decide)⟩
